import Mathlib

/-!
Shallow embedding of the Needleman-Wunsch sequence aligner in `src/main.py`:
the matrix fill (`PopulateMatrix`, lines 37-75), the symbol-pair scorer
(`ScoringMatrix`, lines 78-97) and the alignment reconstruction
(`BackTracking`, lines 100-159), together with theorems settling the
specified properties.  Sequences are `List Char`; the numpy matrix is a
total function `Nat → Nat → Option Int` where `none` is a still-`None`
(never written) cell; fallible steps — sequence indexing, arithmetic on a
`None` cell — return `Option`, `none` standing for the Python exception.
-/

/-- Gap penalty constant of the fill loop (line 54); the backtracker uses
the literal `-2` (lines 127-128). -/
def gap_penalty : Int := -2

/-- Embedding of `ScoringMatrix` (lines 78-97): read the two symbols at the
1-based row and column indices and compare them, +1 on (case-sensitive)
equality and -1 otherwise.  Every caller passes indices that are at least 1,
so the `Nat` truncation at index 0 is unreachable; an out-of-range read is
`none` (Python `IndexError`). -/
def ScoringMatrix (current_row current_column : Nat) (seq1 seq2 : List Char) : Option Int :=
  match seq1[current_row - 1]?, seq2[current_column - 1]? with
  | some a, some b => some (if a = b then (1 : Int) else -1)
  | _, _ => none

/-- Body of `ScoringMatrix` as a total function of the two symbols
themselves: +1 on (case-sensitive) equality, -1 otherwise (lines 94-97). -/
def pairScore (a b : Char) : Int := if a = b then 1 else -1

/-- One iteration of the fill loop of `PopulateMatrix` (lines 59-72):
the value written into cell `(row, column)` given the matrix state so far.
A read of a still-`None` cell makes the Python addition raise, hence
`none`. -/
def fillStep (sequence1 sequence2 : List Char) (matrix : Nat → Nat → Option Int)
    (row column : Nat) : Option Int :=
  if row = 0 ∧ column = 0 then
    some 0
  else if row = 0 then
    (matrix row (column - 1)).map (· + gap_penalty)
  else if column = 0 then
    (matrix (row - 1) column).map (· + gap_penalty)
  else
    match matrix (row - 1) (column - 1), ScoringMatrix row column sequence1 sequence2,
        matrix (row - 1) column, matrix row (column - 1) with
    | some pm, some sc, some pu, some pl =>
        some (max (pm + sc) (max (pu + gap_penalty) (pl + gap_penalty)))
    | _, _, _, _ => none

/-- Pointwise update of the matrix function at one cell. -/
def matupd (matrix : Nat → Nat → Option Int) (r c : Nat) (v : Option Int) :
    Nat → Nat → Option Int :=
  fun i j => if i = r ∧ j = c then v else matrix i j

/-- The nested `for row / for column` loops of `PopulateMatrix` (lines 57-72)
in row-major order: iteration `k` writes cell `(k / cols, k % cols)`. -/
def fillLoop (sequence1 sequence2 : List Char) (cols : Nat) : Nat → (Nat → Nat → Option Int)
  | 0 => fun _ _ => none
  | k + 1 =>
      let m := fillLoop sequence1 sequence2 cols k
      matupd m (k / cols) (k % cols) (fillStep sequence1 sequence2 m (k / cols) (k % cols))

/-- Matrix-building phase of `PopulateMatrix` (lines 57-72), started on the
`None`-initialized matrix allocated in `ParserFile` (line 27): run all
`seq_rows * seq_columns` iterations of the nested loops. -/
def PopulateMatrix (seq_rows seq_columns : Nat) (sequence1 sequence2 : List Char) :
    Nat → Nat → Option Int :=
  fillLoop sequence1 sequence2 seq_columns (seq_rows * seq_columns)

/-- The Needleman-Wunsch recurrence that the filled matrix realizes
(lines 59-72 read as a recurrence on the cell indices). -/
def cell (seq1 seq2 : List Char) : Nat → Nat → Int
  | 0, 0 => 0
  | 0, j + 1 => cell seq1 seq2 0 j + gap_penalty
  | i + 1, 0 => cell seq1 seq2 i 0 + gap_penalty
  | i + 1, j + 1 =>
      max (cell seq1 seq2 i j + pairScore (seq1[i]?.getD ' ') (seq2[j]?.getD ' '))
        (max (cell seq1 seq2 i (j + 1) + gap_penalty) (cell seq1 seq2 (i + 1) j + gap_penalty))
termination_by i j => (i, j)

/-- The `while row_index > 0 and column_index > 0` loop of `BackTracking`
(lines 124-143).  The first `Nat` argument is fuel: every iteration spends
one unit while `row_index + column_index` falls by at least one, so starting
fuel `row_index + column_index` (as `BackTrackingParts` does) never runs
out before the loop condition fails.  The three candidate scores are
recomputed from the matrix exactly as in lines 126-128 before the branch is
chosen (lines 131-143). -/
def BTloop (matrix : Nat → Nat → Option Int) (seq_one seq_two : List Char) :
    Nat → Nat → Nat → List Char → List Char → Option (Nat × Nat × List Char × List Char)
  | 0, row_index, column_index, f1, f2 => some (row_index, column_index, f1, f2)
  | fuel + 1, row_index, column_index, f1, f2 =>
    if row_index > 0 ∧ column_index > 0 then
      match matrix (row_index - 1) (column_index - 1),
          ScoringMatrix row_index column_index seq_one seq_two,
          matrix (row_index - 1) column_index,
          matrix row_index (column_index - 1) with
      | some pm, some sc, some pu, some pl =>
        let diagonal_score := pm + sc
        let upper_score := pu + -2
        let side_score := pl + -2
        if diagonal_score > upper_score ∧ diagonal_score > side_score then
          match seq_one[row_index - 1]?, seq_two[column_index - 1]? with
          | some a, some b =>
              BTloop matrix seq_one seq_two fuel
                (row_index - 1) (column_index - 1) (a :: f1) (b :: f2)
          | _, _ => none
        else if upper_score > side_score then
          match seq_one[row_index - 1]? with
          | some a =>
              BTloop matrix seq_one seq_two fuel
                (row_index - 1) column_index (a :: f1) ('-' :: f2)
          | none => none
        else
          match seq_two[column_index - 1]? with
          | some b =>
              BTloop matrix seq_one seq_two fuel
                row_index (column_index - 1) ('-' :: f1) (b :: f2)
          | none => none
      | _, _, _, _ => none
    else some (row_index, column_index, f1, f2)

/-- Cleanup loop draining the remaining rows (lines 146-150): consume the
rest of `seq_one` against gaps in the second output. -/
def drainRows (seq_one : List Char) : Nat → List Char → List Char → Option (List Char × List Char)
  | 0, f1, f2 => some (f1, f2)
  | ri + 1, f1, f2 =>
    match seq_one[ri]? with
    | some a => drainRows seq_one ri (a :: f1) ('-' :: f2)
    | none => none

/-- Cleanup loop draining the remaining columns (lines 151-155): consume the
rest of `seq_two` against gaps in the first output. -/
def drainCols (seq_two : List Char) : Nat → List Char → List Char → Option (List Char × List Char)
  | 0, f1, f2 => some (f1, f2)
  | ci + 1, f1, f2 =>
    match seq_two[ci]? with
    | some b => drainCols seq_two ci ('-' :: f1) (b :: f2)
    | none => none

/-- Embedding of `BackTracking` (lines 100-159) up to (but excluding) the
final string rendering of line 159: walk from the bottom-right cell, drain
whichever index is left, and read the score from the final cell
`matrix[-1, -1]`, returning `(seq_one_final, seq_two_final, score)`. -/
def BackTrackingParts (matx : Nat → Nat → Option Int) (rows cols : Nat)
    (sequence1 sequence2 : List Char) : Option (List Char × List Char × Int) :=
  let row_index := rows - 1
  let column_index := cols - 1
  match BTloop matx sequence1 sequence2 (row_index + column_index)
      row_index column_index [] [] with
  | none => none
  | some (ri, ci, f1, f2) =>
    match (if ci = 0 then drainRows sequence1 ri f1 f2
        else if ri = 0 then drainCols sequence2 ci f1 f2
        else some (f1, f2)) with
    | none => none
    | some (g1, g2) =>
      match matx (rows - 1) (cols - 1) with
      | none => none
      | some score => some (g1, g2, score)

/-- The string `BackTracking` actually returns (line 159):
`f'{seq_one_final} {seq_two_final} {matrix[-1, -1]}'`. -/
def BackTracking (matx : Nat → Nat → Option Int) (rows cols : Nat)
    (sequence1 sequence2 : List Char) : Option String :=
  match BackTrackingParts matx rows cols sequence1 sequence2 with
  | some (f1, f2, score) =>
      some (String.mk f1 ++ " " ++ String.mk f2 ++ " " ++ toString score)
  | none => none

/-- One row of `ParserFile` (lines 25-30) without the I/O: allocate a
`(len1 + 1) × (len2 + 1)` matrix, fill it, and run the backtracker,
returning the aligned pair and the score. -/
def align (seq_one seq_two : List Char) : Option (List Char × List Char × Int) :=
  let one_size := seq_one.length + 1
  let two_size := seq_two.length + 1
  BackTrackingParts (PopulateMatrix one_size two_size seq_one seq_two)
    one_size two_size seq_one seq_two

/-! ### Basic helpers -/

lemma mem_of_getElem_opt {l : List Char} {i : Nat} {a : Char} (h : l[i]? = some a) : a ∈ l := by
  have hi : i < l.length := by
    by_contra hc
    rw [List.getElem?_eq_none (by omega)] at h
    exact Option.noConfusion h
  rw [List.getElem?_eq_getElem hi] at h
  cases h
  exact List.getElem_mem hi

lemma getElem_opt_getD {l : List Char} {i : Nat} {a : Char} (h : l[i]? = some a) :
    l[i]?.getD ' ' = a := by rw [h]; rfl

lemma getElem_opt_of_lt {l : List Char} {i : Nat} (h : i < l.length) :
    l[i]? = some (l[i]?.getD ' ') := by
  rw [List.getElem?_eq_getElem h]; rfl

lemma take_succ_cons {l : List Char} {i : Nat} {a : Char} (h : l[i]? = some a)
    (rest : List Char) : l.take i ++ a :: rest = l.take (i + 1) ++ rest := by
  rw [List.take_succ, h]
  simp

lemma max3_eq {x y z w : Int} (hx : x ≤ w) (hy : y ≤ w) (hz : z ≤ w)
    (h : x = w ∨ y = w ∨ z = w) : max x (max y z) = w := by
  apply le_antisymm (max_le hx (max_le hy hz))
  rcases h with rfl | rfl | rfl
  · exact le_max_left _ _
  · exact le_trans (le_max_left y z) (le_max_right x _)
  · exact le_trans (le_max_right y z) (le_max_right x _)

lemma matupd_self (m : Nat → Nat → Option Int) (r c : Nat) (v : Option Int) :
    matupd m r c v r c = v := by simp [matupd]

lemma matupd_ne (m : Nat → Nat → Option Int) (r c : Nat) (v : Option Int) {i j : Nat}
    (h : ¬(i = r ∧ j = c)) : matupd m r c v i j = m i j := by
  simp only [matupd]
  rw [if_neg h]

/-! ### Scoring lemmas -/

lemma ScoringMatrix_eq {seq1 seq2 : List Char} {r c : Nat}
    (hr : r - 1 < seq1.length) (hc : c - 1 < seq2.length) :
    ScoringMatrix r c seq1 seq2 =
      some (pairScore (seq1[r - 1]?.getD ' ') (seq2[c - 1]?.getD ' ')) := by
  unfold ScoringMatrix pairScore
  rw [List.getElem?_eq_getElem hr, List.getElem?_eq_getElem hc]
  rfl

lemma pairScore_comm (a b : Char) : pairScore a b = pairScore b a := by
  unfold pairScore
  by_cases h : a = b
  · simp [h]
  · rw [if_neg h, if_neg (fun hba => h hba.symm)]

lemma pairScore_self (a : Char) : pairScore a a = 1 := by simp [pairScore]

lemma pairScore_cases (a b : Char) : pairScore a b = 1 ∨ pairScore a b = -1 := by
  unfold pairScore
  split <;> simp

/-! ### Values of the recurrence on the borders -/

lemma cell_zero_col (seq1 seq2 : List Char) : ∀ i, cell seq1 seq2 i 0 = -2 * (i : Int) := by
  intro i
  induction i with
  | zero => simp [cell]
  | succ i ih =>
      rw [show cell seq1 seq2 (i + 1) 0 = cell seq1 seq2 i 0 + gap_penalty from by
        simp [cell], ih]
      unfold gap_penalty
      push_cast
      ring

lemma cell_zero_row (seq1 seq2 : List Char) : ∀ j, cell seq1 seq2 0 j = -2 * (j : Int) := by
  intro j
  induction j with
  | zero => simp [cell]
  | succ j ih =>
      rw [show cell seq1 seq2 0 (j + 1) = cell seq1 seq2 0 j + gap_penalty from by
        simp [cell], ih]
      unfold gap_penalty
      push_cast
      ring

/-! ### Symmetry of the recurrence -/

lemma cell_comm_aux (seq1 seq2 : List Char) :
    ∀ n i j, i + j ≤ n → cell seq1 seq2 i j = cell seq2 seq1 j i := by
  intro n
  induction n with
  | zero =>
      intro i j h
      have hi0 : i = 0 := by omega
      have hj0 : j = 0 := by omega
      subst hi0; subst hj0
      simp [cell]
  | succ n ih =>
      intro i j h
      rcases i with _ | i
      · rcases j with _ | j
        · simp [cell]
        · rw [show cell seq1 seq2 0 (j + 1) = cell seq1 seq2 0 j + gap_penalty from by
              simp [cell],
            show cell seq2 seq1 (j + 1) 0 = cell seq2 seq1 j 0 + gap_penalty from by
              simp [cell],
            ih 0 j (by omega)]
      · rcases j with _ | j
        · rw [show cell seq1 seq2 (i + 1) 0 = cell seq1 seq2 i 0 + gap_penalty from by
              simp [cell],
            show cell seq2 seq1 0 (i + 1) = cell seq2 seq1 0 i + gap_penalty from by
              simp [cell],
            ih i 0 (by omega)]
        · simp only [cell]
          rw [ih i j (by omega), ih i (j + 1) (by omega), ih (i + 1) j (by omega),
            pairScore_comm]
          rw [max_comm (cell seq2 seq1 (j + 1) i + gap_penalty)
            (cell seq2 seq1 j (i + 1) + gap_penalty)]

lemma cell_comm (seq1 seq2 : List Char) (i j : Nat) :
    cell seq1 seq2 i j = cell seq2 seq1 j i :=
  cell_comm_aux seq1 seq2 (i + j) i j le_rfl

/-! ### Self-alignment values of the recurrence -/

lemma cell_self_le (A : List Char) :
    ∀ n i j, i + j ≤ n → i ≤ j → j ≤ A.length →
      cell A A i j = 3 * (i : Int) - 2 * (j : Int) := by
  intro n
  induction n with
  | zero =>
      intro i j h _ _
      have hi0 : i = 0 := by omega
      have hj0 : j = 0 := by omega
      subst hi0; subst hj0
      simp [cell]
  | succ n ih =>
      intro i j h hij hj
      rcases i with _ | i
      · rcases j with _ | j
        · simp [cell]
        · rw [show cell A A 0 (j + 1) = cell A A 0 j + gap_penalty from by simp [cell],
            ih 0 j (by omega) (by omega) (by omega)]
          unfold gap_penalty
          push_cast
          ring
      · rcases j with _ | j
        · exact absurd hij (by omega)
        · have hA := ih i j (by omega) (by omega) (by omega)
          have hB := ih i (j + 1) (by omega) (by omega) (by omega)
          simp only [cell]
          rcases Nat.lt_or_ge i j with hlt | hge
          · have hC := ih (i + 1) j (by omega) (by omega) (by omega)
            have hple : pairScore (A[i]?.getD ' ') (A[j]?.getD ' ') ≤ 1 := by
              rcases pairScore_cases (A[i]?.getD ' ') (A[j]?.getD ' ') with hp | hp <;> omega
            rw [hA, hB, hC]
            unfold gap_penalty
            apply max3_eq
            · push_cast; omega
            · push_cast; omega
            · push_cast; omega
            · right; right; push_cast; ring
          · have hii : i = j := by omega
            subst hii
            have hC : cell A A (i + 1) i = 3 * (i : Int) - 2 * ((i : Int) + 1) := by
              rw [cell_comm, ih i (i + 1) (by omega) (by omega) (by omega)]
              push_cast
              ring
            rw [hA, hB, hC, pairScore_self]
            unfold gap_penalty
            apply max3_eq
            · push_cast; omega
            · push_cast; omega
            · push_cast; omega
            · left; push_cast; ring

lemma cell_self_diag (A : List Char) (i : Nat) (hi : i ≤ A.length) :
    cell A A i i = (i : Int) := by
  rw [cell_self_le A (i + i) i i le_rfl le_rfl hi]
  ring

lemma cell_self_above (A : List Char) (i : Nat) (hi : i + 1 ≤ A.length) :
    cell A A i (i + 1) = (i : Int) - 2 := by
  rw [cell_self_le A (i + (i + 1)) i (i + 1) le_rfl (by omega) hi]
  push_cast
  ring

lemma cell_self_below (A : List Char) (i : Nat) (hi : i + 1 ≤ A.length) :
    cell A A (i + 1) i = (i : Int) - 2 := by
  rw [cell_comm, cell_self_above A i hi]

/-! ### The fill loop realizes the recurrence -/

lemma lin_div (cols i j : Nat) (hj : j < cols) : (i * cols + j) / cols = i := by
  rw [Nat.add_comm, Nat.add_mul_div_right j i (show 0 < cols by omega), Nat.div_eq_of_lt hj]
  omega

lemma lin_mod (cols i j : Nat) (hj : j < cols) : (i * cols + j) % cols = j := by
  rw [Nat.add_comm, Nat.add_mul_mod_self_right]
  exact Nat.mod_eq_of_lt hj

lemma fillStep_correct (seq1 seq2 : List Char) (m : Nat → Nat → Option Int) (r c : Nat)
    (hr : r ≤ seq1.length) (hc : c ≤ seq2.length)
    (hm : ∀ i j, j ≤ seq2.length → (i < r ∨ (i = r ∧ j < c)) →
      m i j = some (cell seq1 seq2 i j)) :
    fillStep seq1 seq2 m r c = some (cell seq1 seq2 r c) := by
  rcases r with _ | r
  · rcases c with _ | c
    · simp [fillStep, cell]
    · have h0 : m 0 c = some (cell seq1 seq2 0 c) := hm 0 c (by omega) (by omega)
      simp [fillStep, h0, cell]
  · rcases c with _ | c
    · have h0 : m r 0 = some (cell seq1 seq2 r 0) := hm r 0 (by omega) (by omega)
      simp [fillStep, h0, cell]
    · have hdd := hm r c (by omega) (by omega)
      have hdu := hm r (c + 1) (by omega) (by omega)
      have hdl := hm (r + 1) c (by omega) (by omega)
      have hsc := ScoringMatrix_eq (show r + 1 - 1 < seq1.length by omega)
        (show c + 1 - 1 < seq2.length by omega)
      simp only [Nat.add_sub_cancel] at hsc
      simp [fillStep, hdd, hdu, hdl, hsc, cell]

lemma fillLoop_eq (seq1 seq2 : List Char) :
    ∀ k, k ≤ (seq1.length + 1) * (seq2.length + 1) → ∀ i j,
      fillLoop seq1 seq2 (seq2.length + 1) k i j =
        if i * (seq2.length + 1) + j < k ∧ j < seq2.length + 1
        then some (cell seq1 seq2 i j) else none := by
  intro k
  induction k with
  | zero =>
      intro _ i j
      rw [if_neg (by omega)]
      rfl
  | succ k ih =>
      intro hk i j
      have hk' : k ≤ (seq1.length + 1) * (seq2.length + 1) := by omega
      set cols := seq2.length + 1 with hcols
      have hcols0 : 0 < cols := by omega
      have hdm : cols * (k / cols) + k % cols = k := Nat.div_add_mod k cols
      have hdm' : k / cols * cols + k % cols = k := by rw [Nat.mul_comm]; exact hdm
      have hmodlt : k % cols < cols := Nat.mod_lt k hcols0
      have hrlt : k / cols < seq1.length + 1 := by
        rw [Nat.div_lt_iff_lt_mul hcols0]
        omega
      show matupd (fillLoop seq1 seq2 cols k) (k / cols) (k % cols)
          (fillStep seq1 seq2 (fillLoop seq1 seq2 cols k) (k / cols) (k % cols)) i j = _
      by_cases hij : i = k / cols ∧ j = k % cols
      · obtain ⟨hi, hj⟩ := hij
        subst hi; subst hj
        rw [matupd_self, if_pos ⟨by omega, hmodlt⟩]
        apply fillStep_correct
        · omega
        · omega
        · intro a b hb hab
          rw [ih hk' a b, if_pos]
          refine ⟨?_, by omega⟩
          rcases hab with ha | ⟨ha, hb2⟩
          · have h1 : (a + 1) * cols ≤ k / cols * cols :=
              Nat.mul_le_mul_right cols (by omega)
            have h2 : (a + 1) * cols = a * cols + cols := Nat.succ_mul a cols
            omega
          · subst ha
            omega
      · rw [matupd_ne _ _ _ _ hij, ih hk' i j]
        by_cases hjc : j < cols
        · have hne : i * cols + j ≠ k := by
            intro he
            apply hij
            constructor
            · rw [← he, lin_div cols i j hjc]
            · rw [← he, lin_mod cols i j hjc]
          by_cases hlt : i * cols + j < k
          · rw [if_pos (show i * cols + j < k ∧ j < cols from ⟨hlt, hjc⟩),
              if_pos (show i * cols + j < k + 1 ∧ j < cols from ⟨by omega, hjc⟩)]
          · rw [if_neg (show ¬(i * cols + j < k ∧ j < cols) by omega),
              if_neg (show ¬(i * cols + j < k + 1 ∧ j < cols) by omega)]
        · rw [if_neg (show ¬(i * cols + j < k ∧ j < cols) by omega),
              if_neg (show ¬(i * cols + j < k + 1 ∧ j < cols) by omega)]

lemma PopulateMatrix_eq (seq1 seq2 : List Char) {i j : Nat}
    (hi : i ≤ seq1.length) (hj : j ≤ seq2.length) :
    PopulateMatrix (seq1.length + 1) (seq2.length + 1) seq1 seq2 i j =
      some (cell seq1 seq2 i j) := by
  unfold PopulateMatrix
  rw [fillLoop_eq seq1 seq2 _ le_rfl i j, if_pos]
  constructor
  · have h1 : (i + 1) * (seq2.length + 1) ≤ (seq1.length + 1) * (seq2.length + 1) :=
      Nat.mul_le_mul_right _ (by omega)
    have h2 : (i + 1) * (seq2.length + 1) = i * (seq2.length + 1) + (seq2.length + 1) :=
      Nat.succ_mul _ _
    omega
  · omega

/-! ### Closed forms of the drain loops -/

lemma drainRows_eq (seq_one : List Char) :
    ∀ ri, ri ≤ seq_one.length → ∀ f1 f2,
      drainRows seq_one ri f1 f2 =
        some (seq_one.take ri ++ f1, List.replicate ri '-' ++ f2) := by
  intro ri
  induction ri with
  | zero =>
      intro _ f1 f2
      simp [drainRows]
  | succ ri ih =>
      intro h f1 f2
      obtain ⟨a, ha⟩ : ∃ a, seq_one[ri]? = some a := ⟨_, getElem_opt_of_lt (by omega)⟩
      simp only [drainRows, ha]
      rw [ih (by omega)]
      rw [take_succ_cons ha f1, List.replicate_succ' ri '-', List.append_assoc]
      rfl

lemma drainCols_eq (seq_two : List Char) :
    ∀ ci, ci ≤ seq_two.length → ∀ f1 f2,
      drainCols seq_two ci f1 f2 =
        some (List.replicate ci '-' ++ f1, seq_two.take ci ++ f2) := by
  intro ci
  induction ci with
  | zero =>
      intro _ f1 f2
      simp [drainCols]
  | succ ci ih =>
      intro h f1 f2
      obtain ⟨b, hb⟩ : ∃ b, seq_two[ci]? = some b := ⟨_, getElem_opt_of_lt (by omega)⟩
      simp only [drainCols, hb]
      rw [ih (by omega)]
      rw [take_succ_cons hb f2, List.replicate_succ' ci '-', List.append_assoc]
      rfl

/-! ### Single-step behavior of the backtracking loop -/

lemma BTloop_step_diag (matrix : Nat → Nat → Option Int) (seq_one seq_two : List Char)
    (fuel ri ci : Nat) (f1 f2 : List Char) (pm sc pu pl : Int) (a b : Char)
    (hri : 0 < ri) (hci : 0 < ci)
    (hdd : matrix (ri - 1) (ci - 1) = some pm)
    (hsc : ScoringMatrix ri ci seq_one seq_two = some sc)
    (hdu : matrix (ri - 1) ci = some pu)
    (hdl : matrix ri (ci - 1) = some pl)
    (hgt : pm + sc > pu + -2 ∧ pm + sc > pl + -2)
    (ha : seq_one[ri - 1]? = some a) (hb : seq_two[ci - 1]? = some b) :
    BTloop matrix seq_one seq_two (fuel + 1) ri ci f1 f2 =
      BTloop matrix seq_one seq_two fuel (ri - 1) (ci - 1) (a :: f1) (b :: f2) := by
  simp only [BTloop, hdd, hsc, hdu, hdl, ha, hb]
  rw [if_pos ⟨hri, hci⟩, if_pos hgt]

lemma BTloop_step_up (matrix : Nat → Nat → Option Int) (seq_one seq_two : List Char)
    (fuel ri ci : Nat) (f1 f2 : List Char) (pm sc pu pl : Int) (a : Char)
    (hri : 0 < ri) (hci : 0 < ci)
    (hdd : matrix (ri - 1) (ci - 1) = some pm)
    (hsc : ScoringMatrix ri ci seq_one seq_two = some sc)
    (hdu : matrix (ri - 1) ci = some pu)
    (hdl : matrix ri (ci - 1) = some pl)
    (hngt : ¬(pm + sc > pu + -2 ∧ pm + sc > pl + -2))
    (hup : pu + -2 > pl + -2)
    (ha : seq_one[ri - 1]? = some a) :
    BTloop matrix seq_one seq_two (fuel + 1) ri ci f1 f2 =
      BTloop matrix seq_one seq_two fuel (ri - 1) ci (a :: f1) ('-' :: f2) := by
  simp only [BTloop, hdd, hsc, hdu, hdl, ha]
  rw [if_pos ⟨hri, hci⟩, if_neg hngt, if_pos hup]

lemma BTloop_step_left (matrix : Nat → Nat → Option Int) (seq_one seq_two : List Char)
    (fuel ri ci : Nat) (f1 f2 : List Char) (pm sc pu pl : Int) (b : Char)
    (hri : 0 < ri) (hci : 0 < ci)
    (hdd : matrix (ri - 1) (ci - 1) = some pm)
    (hsc : ScoringMatrix ri ci seq_one seq_two = some sc)
    (hdu : matrix (ri - 1) ci = some pu)
    (hdl : matrix ri (ci - 1) = some pl)
    (hngt : ¬(pm + sc > pu + -2 ∧ pm + sc > pl + -2))
    (hnup : ¬(pu + -2 > pl + -2))
    (hb : seq_two[ci - 1]? = some b) :
    BTloop matrix seq_one seq_two (fuel + 1) ri ci f1 f2 =
      BTloop matrix seq_one seq_two fuel ri (ci - 1) ('-' :: f1) (b :: f2) := by
  simp only [BTloop, hdd, hsc, hdu, hdl, hb]
  rw [if_pos ⟨hri, hci⟩, if_neg hngt, if_neg hnup]

lemma BTloop_exit (matrix : Nat → Nat → Option Int) (seq_one seq_two : List Char)
    (fuel ri ci : Nat) (f1 f2 : List Char) (h : ¬(ri > 0 ∧ ci > 0)) :
    BTloop matrix seq_one seq_two fuel ri ci f1 f2 = some (ri, ci, f1, f2) := by
  rcases fuel with _ | fuel
  · simp [BTloop]
  · simp only [BTloop]
    rw [if_neg h]

/-! ### Backtracking walks the diagonal for identical sequences -/

lemma BTloop_self (A : List Char) :
    ∀ i fuel, i ≤ fuel → i ≤ A.length → ∀ f1 f2,
      BTloop (PopulateMatrix (A.length + 1) (A.length + 1) A A) A A fuel i i f1 f2 =
        some (0, 0, A.take i ++ f1, A.take i ++ f2) := by
  intro i
  induction i with
  | zero =>
      intro fuel _ _ f1 f2
      rw [BTloop_exit _ _ _ _ _ _ _ _ (by omega)]
      simp
  | succ i ih =>
      intro fuel hfuel hlen f1 f2
      rcases fuel with _ | fuel
      · omega
      · obtain ⟨a, ha⟩ : ∃ a, A[i]? = some a := ⟨_, getElem_opt_of_lt (by omega)⟩
        have ha' : A[i + 1 - 1]? = some a := by simpa using ha
        have hdd : PopulateMatrix (A.length + 1) (A.length + 1) A A (i + 1 - 1) (i + 1 - 1) =
            some ((i : Int)) := by
          simp only [Nat.add_sub_cancel]
          rw [PopulateMatrix_eq A A (by omega) (by omega), cell_self_diag A i (by omega)]
        have hsc : ScoringMatrix (i + 1) (i + 1) A A = some 1 := by
          rw [ScoringMatrix_eq (show i + 1 - 1 < A.length by omega)
            (show i + 1 - 1 < A.length by omega), pairScore_self]
        have hdu : PopulateMatrix (A.length + 1) (A.length + 1) A A (i + 1 - 1) (i + 1) =
            some ((i : Int) - 2) := by
          simp only [Nat.add_sub_cancel]
          rw [PopulateMatrix_eq A A (by omega) (by omega), cell_self_above A i (by omega)]
        have hdl : PopulateMatrix (A.length + 1) (A.length + 1) A A (i + 1) (i + 1 - 1) =
            some ((i : Int) - 2) := by
          simp only [Nat.add_sub_cancel]
          rw [PopulateMatrix_eq A A (by omega) (by omega), cell_self_below A i (by omega)]
        rw [BTloop_step_diag _ A A fuel (i + 1) (i + 1) f1 f2 _ _ _ _ a a
          (by omega) (by omega) hdd hsc hdu hdl ⟨by omega, by omega⟩ ha' ha']
        simp only [Nat.add_sub_cancel]
        rw [ih fuel (by omega) (by omega), take_succ_cons ha f1, take_succ_cons ha f2]

/-! ### Global shape of the backtracking loop on the filled matrix -/

lemma BTloop_shape (s1 s2 : List Char) :
    ∀ fuel ri ci, ri ≤ s1.length → ci ≤ s2.length → ∀ f1 f2,
      ∃ ri' ci' f1' f2',
        BTloop (PopulateMatrix (s1.length + 1) (s2.length + 1) s1 s2) s1 s2
            fuel ri ci f1 f2 = some (ri', ci', f1', f2') ∧
        ri' ≤ ri ∧ ci' ≤ ci ∧
        (ri + ci ≤ fuel → ri' = 0 ∨ ci' = 0) ∧
        f1'.length + f2.length = f2'.length + f1.length ∧
        ('-' ∉ s1 →
          f1'.filter (fun c => c != '-') =
            (s1.drop ri').take (ri - ri') ++ f1.filter (fun c => c != '-')) ∧
        ('-' ∉ s2 →
          f2'.filter (fun c => c != '-') =
            (s2.drop ci').take (ci - ci') ++ f2.filter (fun c => c != '-')) := by
  intro fuel
  induction fuel with
  | zero =>
      intro ri ci hri hci f1 f2
      exact ⟨ri, ci, f1, f2, rfl, le_rfl, le_rfl, fun h => Or.inl (by omega), by omega,
        fun _ => by simp, fun _ => by simp⟩
  | succ fuel ih =>
      intro ri ci hri hci f1 f2
      by_cases hpos : ri > 0 ∧ ci > 0
      · obtain ⟨hri0, hci0⟩ := hpos
        have hdd : PopulateMatrix (s1.length + 1) (s2.length + 1) s1 s2 (ri - 1) (ci - 1) =
            some (cell s1 s2 (ri - 1) (ci - 1)) :=
          PopulateMatrix_eq s1 s2 (by omega) (by omega)
        have hdu : PopulateMatrix (s1.length + 1) (s2.length + 1) s1 s2 (ri - 1) ci =
            some (cell s1 s2 (ri - 1) ci) := PopulateMatrix_eq s1 s2 (by omega) hci
        have hdl : PopulateMatrix (s1.length + 1) (s2.length + 1) s1 s2 ri (ci - 1) =
            some (cell s1 s2 ri (ci - 1)) := PopulateMatrix_eq s1 s2 hri (by omega)
        obtain ⟨a, ha⟩ : ∃ a, s1[ri - 1]? = some a := ⟨_, getElem_opt_of_lt (by omega)⟩
        obtain ⟨b, hb⟩ : ∃ b, s2[ci - 1]? = some b := ⟨_, getElem_opt_of_lt (by omega)⟩
        have hsc : ScoringMatrix ri ci s1 s2 = some (pairScore a b) := by
          rw [ScoringMatrix_eq (by omega) (by omega), getElem_opt_getD ha, getElem_opt_getD hb]
        by_cases hgt : cell s1 s2 (ri - 1) (ci - 1) + pairScore a b >
              cell s1 s2 (ri - 1) ci + -2 ∧
            cell s1 s2 (ri - 1) (ci - 1) + pairScore a b > cell s1 s2 ri (ci - 1) + -2
        · obtain ⟨ri', ci', f1', f2', heq, h1, h2, h3, h4, h5, h6⟩ :=
            ih (ri - 1) (ci - 1) (by omega) (by omega) (a :: f1) (b :: f2)
          refine ⟨ri', ci', f1', f2', ?_, by omega, by omega, fun hf => h3 (by omega),
            ?_, ?_, ?_⟩
          · rw [BTloop_step_diag _ s1 s2 fuel ri ci f1 f2 _ _ _ _ a b
              hri0 hci0 hdd hsc hdu hdl hgt ha hb]
            exact heq
          · simp only [List.length_cons] at h4
            omega
          · intro hs1
            have hanez : a ≠ '-' := fun he => hs1 (he ▸ mem_of_getElem_opt ha)
            have hda : (s1.drop ri')[ri - 1 - ri']? = some a := by
              rw [List.getElem?_drop, show ri' + (ri - 1 - ri') = ri - 1 from by omega]
              exact ha
            have h5' := h5 hs1
            rw [List.filter_cons_of_pos (by simp [hanez])] at h5'
            rw [h5', take_succ_cons hda (List.filter (fun c => c != '-') f1),
              show ri - 1 - ri' + 1 = ri - ri' from by omega]
          · intro hs2
            have hbnez : b ≠ '-' := fun he => hs2 (he ▸ mem_of_getElem_opt hb)
            have hdb : (s2.drop ci')[ci - 1 - ci']? = some b := by
              rw [List.getElem?_drop, show ci' + (ci - 1 - ci') = ci - 1 from by omega]
              exact hb
            have h6' := h6 hs2
            rw [List.filter_cons_of_pos (by simp [hbnez])] at h6'
            rw [h6', take_succ_cons hdb (List.filter (fun c => c != '-') f2),
              show ci - 1 - ci' + 1 = ci - ci' from by omega]
        · by_cases hup : cell s1 s2 (ri - 1) ci + -2 > cell s1 s2 ri (ci - 1) + -2
          · obtain ⟨ri', ci', f1', f2', heq, h1, h2, h3, h4, h5, h6⟩ :=
              ih (ri - 1) ci (by omega) hci (a :: f1) ('-' :: f2)
            refine ⟨ri', ci', f1', f2', ?_, by omega, h2, fun hf => h3 (by omega),
              ?_, ?_, ?_⟩
            · rw [BTloop_step_up _ s1 s2 fuel ri ci f1 f2 _ _ _ _ a
                hri0 hci0 hdd hsc hdu hdl hgt hup ha]
              exact heq
            · simp only [List.length_cons] at h4
              omega
            · intro hs1
              have hanez : a ≠ '-' := fun he => hs1 (he ▸ mem_of_getElem_opt ha)
              have hda : (s1.drop ri')[ri - 1 - ri']? = some a := by
                rw [List.getElem?_drop, show ri' + (ri - 1 - ri') = ri - 1 from by omega]
                exact ha
              have h5' := h5 hs1
              rw [List.filter_cons_of_pos (by simp [hanez])] at h5'
              rw [h5', take_succ_cons hda (List.filter (fun c => c != '-') f1),
                show ri - 1 - ri' + 1 = ri - ri' from by omega]
            · intro hs2
              have h6' := h6 hs2
              rw [List.filter_cons_of_neg (by simp)] at h6'
              exact h6'
          · obtain ⟨ri', ci', f1', f2', heq, h1, h2, h3, h4, h5, h6⟩ :=
              ih ri (ci - 1) hri (by omega) ('-' :: f1) (b :: f2)
            refine ⟨ri', ci', f1', f2', ?_, h1, by omega, fun hf => h3 (by omega),
              ?_, ?_, ?_⟩
            · rw [BTloop_step_left _ s1 s2 fuel ri ci f1 f2 _ _ _ _ b
                hri0 hci0 hdd hsc hdu hdl hgt hup hb]
              exact heq
            · simp only [List.length_cons] at h4
              omega
            · intro hs1
              have h5' := h5 hs1
              rw [List.filter_cons_of_neg (by simp)] at h5'
              exact h5'
            · intro hs2
              have hbnez : b ≠ '-' := fun he => hs2 (he ▸ mem_of_getElem_opt hb)
              have hdb : (s2.drop ci')[ci - 1 - ci']? = some b := by
                rw [List.getElem?_drop, show ci' + (ci - 1 - ci') = ci - 1 from by omega]
                exact hb
              have h6' := h6 hs2
              rw [List.filter_cons_of_pos (by simp [hbnez])] at h6'
              rw [h6', take_succ_cons hdb (List.filter (fun c => c != '-') f2),
                show ci - 1 - ci' + 1 = ci - ci' from by omega]
      · exact ⟨ri, ci, f1, f2, BTloop_exit _ _ _ _ _ _ _ _ hpos, le_rfl, le_rfl,
          fun _ => by omega, by omega, fun _ => by simp, fun _ => by simp⟩

/-! ### Filter helpers for gap-marker removal -/

lemma filter_no_dash {s : List Char} (hs : '-' ∉ s) {t : List Char} (ht : ∀ a ∈ t, a ∈ s) :
    t.filter (fun c => c != '-') = t := by
  rw [List.filter_eq_self]
  intro a ha
  simp only [bne_iff_ne, ne_eq, decide_eq_true_eq]
  exact fun he => hs (he ▸ ht a ha)

lemma drop_take_all (s : List Char) (n : Nat) :
    (s.drop n).take (s.length - n) = s.drop n := by
  apply List.take_of_length_le
  simp

lemma filter_replicate_dash (n : Nat) :
    (List.replicate n '-').filter (fun c => c != '-') = [] := by
  rw [List.filter_eq_nil_iff]
  intro a ha
  simp only [List.mem_replicate] at ha
  simp [ha.2]

/-! ### Case analysis of a full alignment run -/

lemma align_cases (s1 s2 : List Char) :
    ∃ ri' ci' f1' f2' : _,
      ri' ≤ s1.length ∧ ci' ≤ s2.length ∧ (ri' = 0 ∨ ci' = 0) ∧
      List.length f1' = List.length f2' ∧
      ('-' ∉ s1 →
        f1'.filter (fun c => c != '-') = (s1.drop ri').take (s1.length - ri')) ∧
      ('-' ∉ s2 →
        f2'.filter (fun c => c != '-') = (s2.drop ci').take (s2.length - ci')) ∧
      ((ci' = 0 ∧ align s1 s2 = some (s1.take ri' ++ f1',
          List.replicate ri' '-' ++ f2', cell s1 s2 s1.length s2.length)) ∨
        (ci' ≠ 0 ∧ ri' = 0 ∧ align s1 s2 = some (List.replicate ci' '-' ++ f1',
          s2.take ci' ++ f2', cell s1 s2 s1.length s2.length))) := by
  obtain ⟨ri', ci', f1', f2', heq, h1, h2, h3, h4, h5, h6⟩ :=
    BTloop_shape s1 s2 (s1.length + s2.length) s1.length s2.length le_rfl le_rfl [] []
  have hd : ri' = 0 ∨ ci' = 0 := h3 le_rfl
  refine ⟨ri', ci', f1', f2', h1, h2, hd, by simpa using h4, ?_, ?_, ?_⟩
  · intro hs1
    simpa using h5 hs1
  · intro hs2
    simpa using h6 hs2
  · by_cases hci : ci' = 0
    · left
      refine ⟨hci, ?_⟩
      unfold align BackTrackingParts
      simp only [Nat.add_sub_cancel]
      simp [heq, hci, drainRows_eq s1 ri' (show ri' ≤ s1.length by omega) f1' f2',
        PopulateMatrix_eq s1 s2 le_rfl le_rfl]
    · right
      have hri : ri' = 0 := hd.resolve_right hci
      refine ⟨hci, hri, ?_⟩
      unfold align BackTrackingParts
      simp only [Nat.add_sub_cancel]
      simp [heq, hci, hri, drainCols_eq s2 ci' (show ci' ≤ s2.length by omega) f1' f2',
        PopulateMatrix_eq s1 s2 le_rfl le_rfl]

/-! ### Claim theorems -/

/-- C2: for every pair of input sequences, the matrix built by
`PopulateMatrix` satisfies cell (0,0) = 0, cell (i,0) = cell (i-1,0) +
gapPenalty, cell (0,j) = cell (0,j-1) + gapPenalty, and every interior cell
(i,j) equals the maximum of cell (i-1,j-1) + pairScore(seq1[i], seq2[j]),
cell (i-1,j) + gapPenalty and cell (i,j-1) + gapPenalty, where pairScore is
+1 on case-sensitive symbol equality and -1 otherwise and gapPenalty
is -2. -/
theorem PopulateMatrix_recurrence (s1 s2 : List Char) :
    gap_penalty = -2 ∧
    PopulateMatrix (s1.length + 1) (s2.length + 1) s1 s2 0 0 = some 0 ∧
    (∀ i, 0 < i → i ≤ s1.length → ∃ v,
      PopulateMatrix (s1.length + 1) (s2.length + 1) s1 s2 (i - 1) 0 = some v ∧
      PopulateMatrix (s1.length + 1) (s2.length + 1) s1 s2 i 0 = some (v + gap_penalty)) ∧
    (∀ j, 0 < j → j ≤ s2.length → ∃ v,
      PopulateMatrix (s1.length + 1) (s2.length + 1) s1 s2 0 (j - 1) = some v ∧
      PopulateMatrix (s1.length + 1) (s2.length + 1) s1 s2 0 j = some (v + gap_penalty)) ∧
    (∀ i j, 0 < i → i ≤ s1.length → 0 < j → j ≤ s2.length → ∃ a b c,
      PopulateMatrix (s1.length + 1) (s2.length + 1) s1 s2 (i - 1) (j - 1) = some a ∧
      PopulateMatrix (s1.length + 1) (s2.length + 1) s1 s2 (i - 1) j = some b ∧
      PopulateMatrix (s1.length + 1) (s2.length + 1) s1 s2 i (j - 1) = some c ∧
      PopulateMatrix (s1.length + 1) (s2.length + 1) s1 s2 i j =
        some (max (a + pairScore (s1[i - 1]?.getD ' ') (s2[j - 1]?.getD ' '))
          (max (b + gap_penalty) (c + gap_penalty)))) := by
  refine ⟨rfl, ?_, fun i hi0 hi => ?_, fun j hj0 hj => ?_, fun i j hi0 hi hj0 hj => ?_⟩
  · rw [PopulateMatrix_eq s1 s2 (by omega) (by omega)]
    simp [cell]
  · obtain ⟨i', rfl⟩ : ∃ i', i = i' + 1 := ⟨i - 1, by omega⟩
    simp only [Nat.add_sub_cancel]
    refine ⟨cell s1 s2 i' 0, PopulateMatrix_eq s1 s2 (by omega) (by omega), ?_⟩
    rw [PopulateMatrix_eq s1 s2 (by omega) (by omega)]
    simp [cell]
  · obtain ⟨j', rfl⟩ : ∃ j', j = j' + 1 := ⟨j - 1, by omega⟩
    simp only [Nat.add_sub_cancel]
    refine ⟨cell s1 s2 0 j', PopulateMatrix_eq s1 s2 (by omega) (by omega), ?_⟩
    rw [PopulateMatrix_eq s1 s2 (by omega) (by omega)]
    simp [cell]
  · obtain ⟨i', rfl⟩ : ∃ i', i = i' + 1 := ⟨i - 1, by omega⟩
    obtain ⟨j', rfl⟩ : ∃ j', j = j' + 1 := ⟨j - 1, by omega⟩
    simp only [Nat.add_sub_cancel]
    refine ⟨cell s1 s2 i' j', cell s1 s2 i' (j' + 1), cell s1 s2 (i' + 1) j',
      PopulateMatrix_eq s1 s2 (by omega) (by omega),
      PopulateMatrix_eq s1 s2 (by omega) (by omega),
      PopulateMatrix_eq s1 s2 (by omega) (by omega), ?_⟩
    rw [PopulateMatrix_eq s1 s2 (by omega) (by omega)]
    simp [cell]

/-- C3: aligning a non-empty sequence against itself returns the sequence
itself on both sides (in particular no gap markers are introduced) and the
final score equals its length. -/
theorem align_self_identity (A : List Char) (_hA : A ≠ []) :
    align A A = some (A, A, (A.length : Int)) := by
  have hbt := BTloop_self A A.length (A.length + A.length) (by omega) le_rfl [] []
  have hsc : PopulateMatrix (A.length + 1) (A.length + 1) A A A.length A.length =
      some ((A.length : Int)) := by
    rw [PopulateMatrix_eq A A le_rfl le_rfl, cell_self_diag A A.length le_rfl]
  unfold align BackTrackingParts
  simp [Nat.add_sub_cancel, hbt, hsc, drainRows]

/-- C4: the score in the final cell of the matrix built for (A, B) equals
the score in the final cell of the matrix built for (B, A). -/
theorem final_score_symm (s1 s2 : List Char) :
    PopulateMatrix (s1.length + 1) (s2.length + 1) s1 s2 s1.length s2.length =
      PopulateMatrix (s2.length + 1) (s1.length + 1) s2 s1 s2.length s1.length := by
  rw [PopulateMatrix_eq s1 s2 le_rfl le_rfl, PopulateMatrix_eq s2 s1 le_rfl le_rfl,
    cell_comm]

/-- C5: in the matrix built by `PopulateMatrix`, cell (0,0) is 0, cell (i,0)
is -2*i for every row index i, and cell (0,j) is -2*j for every column
index j. -/
theorem matrix_border_values (s1 s2 : List Char) :
    PopulateMatrix (s1.length + 1) (s2.length + 1) s1 s2 0 0 = some 0 ∧
    (∀ i, i ≤ s1.length →
      PopulateMatrix (s1.length + 1) (s2.length + 1) s1 s2 i 0 = some (-2 * (i : Int))) ∧
    (∀ j, j ≤ s2.length →
      PopulateMatrix (s1.length + 1) (s2.length + 1) s1 s2 0 j = some (-2 * (j : Int))) := by
  refine ⟨?_, fun i hi => ?_, fun j hj => ?_⟩
  · rw [PopulateMatrix_eq s1 s2 (by omega) (by omega)]
    simp [cell]
  · rw [PopulateMatrix_eq s1 s2 hi (by omega), cell_zero_col]
  · rw [PopulateMatrix_eq s1 s2 (by omega) hj, cell_zero_row]

/-- C6: aligning any sequence A against the empty sequence yields A itself,
a gap-string of length len(A), and score -2*len(A). -/
theorem align_against_empty (A : List Char) :
    align A [] = some (A, List.replicate A.length '-', -2 * (A.length : Int)) := by
  have hb : PopulateMatrix (A.length + 1) (0 + 1) A [] A.length 0 =
      some (-2 * (A.length : Int)) := by
    have h := PopulateMatrix_eq A [] (le_refl A.length) (Nat.zero_le _)
    simp only [List.length_nil] at h
    rw [h, cell_zero_col]
  unfold align BackTrackingParts
  simp only [List.length_nil, Nat.add_sub_cancel, Nat.add_zero]
  rw [BTloop_exit _ _ _ _ _ _ _ _ (by omega)]
  simp [hb, drainRows_eq A A.length le_rfl [] []]

/-- C1: at every backtracking step with both indices positive, the diagonal
move (consume one symbol from each side and decrement both indices) is
taken if the recomputed diagonal score strictly exceeds both the up score
and the left score; otherwise the up move is taken exactly when the up
score strictly exceeds the left score; otherwise the left move is taken.
In particular an exact three-way tie resolves to the left move (last
conjunct). -/
theorem backtracking_tiebreak (matrix : Nat → Nat → Option Int)
    (seq_one seq_two : List Char) (fuel ri ci : Nat) (f1 f2 : List Char)
    (pm sc pu pl : Int) (a b : Char)
    (hri : 0 < ri) (hci : 0 < ci)
    (hdd : matrix (ri - 1) (ci - 1) = some pm)
    (hsc : ScoringMatrix ri ci seq_one seq_two = some sc)
    (hdu : matrix (ri - 1) ci = some pu)
    (hdl : matrix ri (ci - 1) = some pl)
    (ha : seq_one[ri - 1]? = some a) (hb : seq_two[ci - 1]? = some b) :
    ((pm + sc > pu + -2 ∧ pm + sc > pl + -2) →
      BTloop matrix seq_one seq_two (fuel + 1) ri ci f1 f2 =
        BTloop matrix seq_one seq_two fuel (ri - 1) (ci - 1) (a :: f1) (b :: f2)) ∧
    (¬(pm + sc > pu + -2 ∧ pm + sc > pl + -2) → pu + -2 > pl + -2 →
      BTloop matrix seq_one seq_two (fuel + 1) ri ci f1 f2 =
        BTloop matrix seq_one seq_two fuel (ri - 1) ci (a :: f1) ('-' :: f2)) ∧
    (¬(pm + sc > pu + -2 ∧ pm + sc > pl + -2) → ¬(pu + -2 > pl + -2) →
      BTloop matrix seq_one seq_two (fuel + 1) ri ci f1 f2 =
        BTloop matrix seq_one seq_two fuel ri (ci - 1) ('-' :: f1) (b :: f2)) ∧
    (pm + sc = pu + -2 → pu = pl →
      BTloop matrix seq_one seq_two (fuel + 1) ri ci f1 f2 =
        BTloop matrix seq_one seq_two fuel ri (ci - 1) ('-' :: f1) (b :: f2)) :=
  ⟨fun hgt =>
      BTloop_step_diag _ _ _ _ _ _ _ _ _ _ _ _ a b hri hci hdd hsc hdu hdl hgt ha hb,
    fun hngt hup =>
      BTloop_step_up _ _ _ _ _ _ _ _ _ _ _ _ a hri hci hdd hsc hdu hdl hngt hup ha,
    fun hngt hnup =>
      BTloop_step_left _ _ _ _ _ _ _ _ _ _ _ _ b hri hci hdd hsc hdu hdl hngt hnup hb,
    fun he1 he2 =>
      BTloop_step_left _ _ _ _ _ _ _ _ _ _ _ _ b hri hci hdd hsc hdu hdl
        (by omega) (by omega) hb⟩

/-- C7: for every pair of input sequences, the two aligned outputs produced
by backtracking have equal length. -/
theorem aligned_lengths_eq (s1 s2 o1 o2 : List Char) (sc : Int)
    (h : align s1 s2 = some (o1, o2, sc)) : o1.length = o2.length := by
  obtain ⟨ri', ci', f1', f2', h1, h2, hd, hlen, hf1, hf2, hcase⟩ := align_cases s1 s2
  rcases hcase with ⟨hci, hal⟩ | ⟨hci, hri, hal⟩
  · rw [hal] at h
    simp only [Option.some_inj, Prod.mk.injEq] at h
    obtain ⟨ho1, ho2, _⟩ := h
    rw [← ho1, ← ho2]
    simp only [List.length_append, List.length_take, List.length_replicate,
      Nat.min_eq_left h1]
    omega
  · rw [hal] at h
    simp only [Option.some_inj, Prod.mk.injEq] at h
    obtain ⟨ho1, ho2, _⟩ := h
    rw [← ho1, ← ho2]
    simp only [List.length_append, List.length_take, List.length_replicate,
      Nat.min_eq_left h2]
    omega

/-- C8: every pair of finite input sequences (including empty ones), with
the matrix dimensioned (len1+1) x (len2+1) as the caller builds it, runs
the fill and the backtracker to a successful result (no error branch, i.e.
never `none`); with both sequences empty the matrix has exactly the one
cell (0,0), the score is 0 and both aligned outputs are empty. -/
theorem align_total (s1 s2 : List Char) :
    (∃ r, align s1 s2 = some r) ∧
    align [] [] = some ([], [], 0) ∧
    (∀ i j, (PopulateMatrix 1 1 [] [] i j).isSome = true ↔ (i = 0 ∧ j = 0)) := by
  refine ⟨?_, by decide, fun i j => ?_⟩
  · obtain ⟨ri', ci', f1', f2', h1, h2, hd, hlen, hf1, hf2, hcase⟩ := align_cases s1 s2
    rcases hcase with ⟨_, hal⟩ | ⟨_, _, hal⟩ <;> exact ⟨_, hal⟩
  · have h := fillLoop_eq [] [] 1 (by simp) i j
    simp only [List.length_nil, Nat.zero_add] at h
    show (fillLoop [] [] 1 (1 * 1) i j).isSome = true ↔ (i = 0 ∧ j = 0)
    rw [show (1 : Nat) * 1 = 1 from rfl, h]
    by_cases hc : i * 1 + j < 1 ∧ j < 1
    · rw [if_pos hc]
      simp only [Option.isSome_some, true_iff]
      omega
    · rw [if_neg hc]
      simp only [Option.isSome_none, Bool.false_eq_true, false_iff]
      omega

/-- C9: the string returned by `BackTracking` is exactly the first aligned
sequence, a single space, the second aligned sequence, a single space, and
the score rendered as a plain integer, where the score is the value read
from the matrix cell (rows-1, cols-1) (its final cell) rather than
recomputed. -/
theorem backtracking_render (matx : Nat → Nat → Option Int) (rows cols : Nat)
    (s1 s2 f1 f2 : List Char) (sc : Int)
    (h : BackTrackingParts matx rows cols s1 s2 = some (f1, f2, sc)) :
    BackTracking matx rows cols s1 s2 =
      some (String.mk f1 ++ " " ++ String.mk f2 ++ " " ++ toString sc) ∧
    matx (rows - 1) (cols - 1) = some sc := by
  constructor
  · unfold BackTracking
    rw [h]
  · unfold BackTrackingParts at h
    simp only [] at h
    rcases hbt : BTloop matx s1 s2 (rows - 1 + (cols - 1)) (rows - 1) (cols - 1) [] []
      with _ | r
    · rw [hbt] at h
      simp at h
    · obtain ⟨ri, ci, f1', f2'⟩ := r
      rw [hbt] at h
      simp only [] at h
      rcases hdr : (if ci = 0 then drainRows s1 ri f1' f2'
          else if ri = 0 then drainCols s2 ci f1' f2' else some (f1', f2')) with _ | g
      · rw [hdr] at h
        simp at h
      · obtain ⟨g1, g2⟩ := g
        rw [hdr] at h
        simp only [] at h
        rcases hscr : matx (rows - 1) (cols - 1) with _ | v
        · rw [hscr] at h
          simp at h
        · rw [hscr] at h
          simp only [Option.some_inj, Prod.mk.injEq] at h
          rw [h.2.2]

/-- C10: when the inputs contain no gap marker, deleting every gap marker
from the first aligned output recovers the first input exactly, and
likewise for the second. -/
theorem align_recovers_inputs (s1 s2 : List Char)
    (hs1 : '-' ∉ s1) (hs2 : '-' ∉ s2) (o1 o2 : List Char) (sc : Int)
    (h : align s1 s2 = some (o1, o2, sc)) :
    o1.filter (fun c => c != '-') = s1 ∧ o2.filter (fun c => c != '-') = s2 := by
  obtain ⟨ri', ci', f1', f2', h1, h2, hd, hlen, hf1, hf2, hcase⟩ := align_cases s1 s2
  have hone := hf1 hs1
  have htwo := hf2 hs2
  rcases hcase with ⟨hci, hal⟩ | ⟨hci, hri, hal⟩
  · rw [hal] at h
    simp only [Option.some_inj, Prod.mk.injEq] at h
    obtain ⟨ho1, ho2, _⟩ := h
    subst hci
    simp only [List.drop_zero, Nat.sub_zero, List.take_length] at htwo
    constructor
    · rw [← ho1, List.filter_append, hone, drop_take_all,
        filter_no_dash hs1 (fun a ha => List.mem_of_mem_take ha), List.take_append_drop]
    · rw [← ho2, List.filter_append, htwo, filter_replicate_dash, List.nil_append]
  · rw [hal] at h
    simp only [Option.some_inj, Prod.mk.injEq] at h
    obtain ⟨ho1, ho2, _⟩ := h
    subst hri
    simp only [List.drop_zero, Nat.sub_zero, List.take_length] at hone
    constructor
    · rw [← ho1, List.filter_append, hone, filter_replicate_dash, List.nil_append]
    · rw [← ho2, List.filter_append, htwo, drop_take_all,
        filter_no_dash hs2 (fun a ha => List.mem_of_mem_take ha), List.take_append_drop]

/-! ### Witnesses -/

/-- Witness for C1: a concrete step where the diagonal strictly dominates,
so the diagonal move is taken. -/
theorem backtracking_tiebreak_witness :
    BTloop (fun _ _ => some 0) ['A'] ['B'] 1 1 1 [] [] =
      BTloop (fun _ _ => some 0) ['A'] ['B'] 0 0 0 ['A'] ['B'] :=
  (backtracking_tiebreak (fun _ _ => some 0) ['A'] ['B'] 0 1 1 [] [] 0 (-1) 0 0 'A' 'B'
    (by decide) (by decide) rfl (by decide) rfl rfl (by decide) (by decide)).1 (by decide)

/-- Witness for C2: the interior recurrence at cell (1,1) of the matrix for
"A" versus "G". -/
theorem PopulateMatrix_recurrence_witness :
    ∃ a b c : Int,
      PopulateMatrix 2 2 ['A'] ['G'] 0 0 = some a ∧
      PopulateMatrix 2 2 ['A'] ['G'] 0 1 = some b ∧
      PopulateMatrix 2 2 ['A'] ['G'] 1 0 = some c ∧
      PopulateMatrix 2 2 ['A'] ['G'] 1 1 =
        some (max (a + pairScore (['A'][0]?.getD ' ') (['G'][0]?.getD ' '))
          (max (b + gap_penalty) (c + gap_penalty))) :=
  (PopulateMatrix_recurrence ['A'] ['G']).2.2.2.2 1 1 (by decide) (by decide) (by decide)
    (by decide)

/-- Witness for C3: aligning "AC" against itself. -/
theorem align_self_identity_witness :
    align ['A', 'C'] ['A', 'C'] = some (['A', 'C'], ['A', 'C'], 2) :=
  align_self_identity ['A', 'C'] (by decide)

/-- Witness for C5: the left border cell (2,0) of the matrix for "AB"
versus the empty sequence. -/
theorem matrix_border_values_witness :
    PopulateMatrix 3 1 ['A', 'B'] [] 2 0 = some (-4) := by
  have h := (matrix_border_values ['A', 'B'] []).2.1 2 (by decide)
  simpa using h

/-- Witness for C7: the outputs of aligning "A" against the empty sequence
have equal length. -/
theorem aligned_lengths_eq_witness :
    List.length ['A'] = List.length ['-'] :=
  aligned_lengths_eq ['A'] [] ['A'] ['-'] (-2) (by decide)

/-- Witness for C9: rendering the backtracking result of the degenerate
1 x 1 run on the constant-zero matrix. -/
theorem backtracking_render_witness :
    BackTracking (fun _ _ => some 0) 1 1 [] [] =
      some (String.mk [] ++ " " ++ String.mk [] ++ " " ++ toString (0 : Int)) ∧
    (fun _ _ => some (0 : Int)) (1 - 1) (1 - 1) = some 0 :=
  backtracking_render (fun _ _ => some 0) 1 1 [] [] [] [] 0 (by decide)

/-- Witness for C10: stripping gap markers from the outputs of aligning
"A" against "G" recovers the inputs. -/
theorem align_recovers_inputs_witness :
    List.filter (fun c => c != '-') ['A'] = ['A'] ∧
    List.filter (fun c => c != '-') ['G'] = ['G'] :=
  align_recovers_inputs ['A'] ['G'] (by decide) (by decide) ['A'] ['G'] (-1) (by decide)

example : align [] [] = some ([], [], 0) := by decide
example : align ['A'] ['G'] = some (['A'], ['G'], -1) := by decide
example : align ['A', 'C'] ['A', 'C'] = some (['A', 'C'], ['A', 'C'], 2) := by decide
example : align ['A', 'C'] [] = some (['A', 'C'], ['-', '-'], -4) := by decide
